import Mathlib

/-!
# Verification of `words` (package `words`, file `words.go`)

A shallow embedding of the word-list loader:

* `parseWordList`, `NewWordMap`, `NewWordList`, `IsValidWord` are translated
  from `words.go`;
* the file system (`os.Stat`, `os.Open`, `bufio.Scanner`), the iteration order
  of Go maps and the collation matcher of `golang.org/x/text/search` are
  library code: they are explicit arguments of the embedded functions.
-/

namespace Words

/-! ## Data model -/

/-- A Go `string` holding file content: a finite sequence of bytes. Go compares
strings byte by byte, which is the lexicographic order of `List (Fin 256)`. -/
abbrev GoString := List (Fin 256)

/-- A file-system path (a key of the file-system state). -/
abbrev Path := String

/-- A Go `error` value that is not `nil`. -/
structure GoError where
  msg : String
deriving DecidableEq, Repr

/-- The outcome of `os.Stat` on a path. The source only tests `err != nil`. -/
inductive StatResult where
  /-- `os.Stat` returned a `FileInfo` and a nil error. -/
  | found
  /-- `os.Stat` returned an error for which `os.IsNotExist` holds. -/
  | notExist
  /-- `os.Stat` returned any other error (permission denied, not a directory, ...). -/
  | failed (e : GoError)
deriving DecidableEq, Repr

/-- The `err != nil` test made on the result of `os.Stat`. -/
def StatResult.isErr : StatResult → Bool
  | .found => false
  | .notExist => true
  | .failed _ => true

/-- An opened file as seen through a `bufio.Scanner`: the tokens that the
successive `scanner.Scan()` / `scanner.Text()` calls yield, and the value of
`scanner.Err()` once `Scan` has returned false. -/
structure OpenFile where
  lines : List GoString
  readErr : Option GoError
deriving DecidableEq, Repr

/-- A file-system state, as far as the package observes it. -/
structure FileSystem where
  /-- Result of `os.Stat path`. -/
  stat : Path → StatResult
  /-- Result of `os.Open path`. -/
  openFile : Path → Except GoError OpenFile

/-- The package-level variables holding the built-in locations. -/
structure Locations where
  unixStandardWordsFileLocations : List Path
  localDictionaryLocations : List Path
deriving DecidableEq, Repr

/-- The initial values of the package-level variables (`words.go`, lines 14-26). -/
def initialLocations : Locations where
  unixStandardWordsFileLocations := ["/usr/share/dict/words", "/usr/dict/words"]
  localDictionaryLocations := ["~/Library/Spelling/LocalDictionary"]

/-- The struct `baseOptions`; `default` is the Go zero value. -/
structure baseOptions where
  IncludeLocalDictionary : Bool := false
  AdditionalWordFiles : List Path := []
deriving DecidableEq, Repr

/-- The struct `NewWordMapOptions`, which embeds `baseOptions`. -/
structure NewWordMapOptions extends baseOptions
deriving DecidableEq, Repr

/-- The struct `NewWordListOptions`, which embeds `baseOptions`. -/
structure NewWordListOptions extends baseOptions where
  IgnoreSort : Bool := false
deriving DecidableEq, Repr

/-- A `language.Tag`. -/
structure LanguageTag where
  name : String
deriving DecidableEq, Repr

/-- The Go zero value `language.Tag{}`, the undetermined language `und`. -/
def LanguageTag.zero : LanguageTag := ⟨"und"⟩

/-- The tag `language.English`. -/
def LanguageTag.English : LanguageTag := ⟨"en"⟩

/-- The struct `IsValidWordOptions`, which embeds `baseOptions`; the field defaults are the
Go zero values. -/
structure IsValidWordOptions extends baseOptions where
  IgnoreCase : Bool := false
  IgnoreDiacritics : Bool := false
  Language : LanguageTag := LanguageTag.zero
deriving DecidableEq, Repr

/-- The two `search.Option` values the package uses. -/
inductive SearchOption where
  | IgnoreCase
  | IgnoreDiacritics
deriving DecidableEq, Repr

/-- The function `search.New` followed by `Matcher.EqualString`: a language and a list of
options give an equivalence test on strings. -/
abbrev SearchNew := LanguageTag → List SearchOption → GoString → GoString → Bool

/-- The order in which `for word := range wordMap` visits the keys of a Go map. The
language leaves it unspecified: any duplicate-free enumeration of the keys. -/
structure MapRange where
  keys : Finset GoString → List GoString
  nodup : ∀ m, (keys m).Nodup
  mem_keys : ∀ m w, w ∈ keys m ↔ w ∈ m

/-! ## The functions of `words.go` -/

/-- The function `parseWordList`: every token of the scanner is inserted in the map, then
`scanner.Err()` is returned. -/
def parseWordList (file : OpenFile) (wordMap : Finset GoString) :
    Finset GoString × Option GoError :=
  (file.lines.foldl (fun m w => insert w m) wordMap, file.readErr)

/-- The list `wordListLocations` built at the start of `NewWordMap` and `IsValidWord`. -/
def wordListLocations (g : Locations) (o : baseOptions) : List Path :=
  let l := g.unixStandardWordsFileLocations ++ o.AdditionalWordFiles
  if o.IncludeLocalDictionary then l ++ g.localDictionaryLocations else l

/-- The loop of `NewWordMap` over `wordListLocations` (lines 73-90). -/
def NewWordMap.loop (fs : FileSystem) :
    List Path → Finset GoString → Finset GoString × Option GoError
  | [], wordMap => (wordMap, none)
  | wordListLocation :: rest, wordMap =>
    if (fs.stat wordListLocation).isErr then
      NewWordMap.loop fs rest wordMap
    else
      match fs.openFile wordListLocation with
      | .error err => (∅, some err)
      | .ok wordsFile =>
        match parseWordList wordsFile wordMap with
        | (_, some err) => (∅, some err)
        | (wordMap', none) => NewWordMap.loop fs rest wordMap'

/-- The function `NewWordMap`; `none` is the nil options pointer. -/
def NewWordMap (g : Locations) (fs : FileSystem) (options : Option NewWordMapOptions) :
    Finset GoString × Option GoError :=
  let options : NewWordMapOptions :=
    match options with
    | none => { IncludeLocalDictionary := false }
    | some o => o
  NewWordMap.loop fs (wordListLocations g options.tobaseOptions) ∅

/-- The function `sort.Strings`: sorts in increasing byte-wise order. -/
def sortStrings (l : List GoString) : List GoString :=
  l.insertionSort (· ≤ ·)

/-- The function `NewWordList`; `none` is the nil options pointer. -/
def NewWordList (g : Locations) (fs : FileSystem) (range : MapRange)
    (options : Option NewWordListOptions) : List GoString × Option GoError :=
  let options : NewWordListOptions :=
    match options with
    | none => { IncludeLocalDictionary := false, IgnoreSort := false }
    | some o => o
  match NewWordMap g fs (some { tobaseOptions := options.tobaseOptions }) with
  | (_, some err) => ([], some err)
  | (wordMap, none) =>
    let wordList := range.keys wordMap
    if !options.IgnoreSort then (sortStrings wordList, none) else (wordList, none)

/-- The slice `matcherOptions` built in `IsValidWord` (lines 168-174). -/
def matcherOptions (o : IsValidWordOptions) : List SearchOption :=
  let m : List SearchOption := []
  let m := if o.IgnoreCase then m ++ [SearchOption.IgnoreCase] else m
  if o.IgnoreDiacritics then m ++ [SearchOption.IgnoreDiacritics] else m

/-- The inner loop of `IsValidWord` (lines 189-193): true when some token matches. -/
def IsValidWord.scan (matcher : GoString → GoString → Bool) (word : GoString) :
    List GoString → Bool
  | [] => false
  | line :: rest => if matcher word line then true else IsValidWord.scan matcher word rest

/-- The loop of `IsValidWord` over `wordListLocations` (lines 177-200). -/
def IsValidWord.loop (fs : FileSystem) (matcher : GoString → GoString → Bool)
    (word : GoString) : List Path → Bool × Option GoError
  | [] => (false, none)
  | wordListLocation :: rest =>
    if (fs.stat wordListLocation).isErr then
      IsValidWord.loop fs matcher word rest
    else
      match fs.openFile wordListLocation with
      | .error err => (false, some err)
      | .ok wordsFile =>
        if IsValidWord.scan matcher word wordsFile.lines then (true, none)
        else
          match wordsFile.readErr with
          | some err => (false, some err)
          | none => IsValidWord.loop fs matcher word rest

/-- The function `IsValidWord`; `none` is the nil options pointer. -/
def IsValidWord (g : Locations) (fs : FileSystem) (searchNew : SearchNew)
    (word : GoString) (options : Option IsValidWordOptions) : Bool × Option GoError :=
  let options : IsValidWordOptions :=
    match options with
    | none => { IgnoreCase := false, IgnoreDiacritics := false,
                Language := LanguageTag.English }
    | some o => o
  let matcher := searchNew options.Language (matcherOptions options)
  IsValidWord.loop fs matcher word (wordListLocations g options.tobaseOptions)

/-! ## Specification-side notions -/

/-- The lines that loading the source `p` contributes: the tokens of the file when
`os.Stat` and `os.Open` both succeed, nothing otherwise. -/
def loadedLines (fs : FileSystem) (p : Path) : List GoString :=
  match fs.stat p with
  | .found =>
    match fs.openFile p with
    | .ok f => f.lines
    | .error _ => []
  | _ => []

/-- The failure raised by the source `p`, if any: the error of `os.Open`, or the error of
the scanner, of a source on which `os.Stat` succeeds. -/
def loadFailure (fs : FileSystem) (p : Path) : Option GoError :=
  match fs.stat p with
  | .found =>
    match fs.openFile p with
    | .ok f => f.readErr
    | .error e => some e
  | _ => none

/-- The resolved sources in priority order: built-in locations, then the additional
files, then the local dictionary locations when enabled. -/
def resolvedSources (g : Locations) (o : baseOptions) : List Path :=
  g.unixStandardWordsFileLocations ++
    (o.AdditionalWordFiles ++
      (if o.IncludeLocalDictionary then g.localDictionaryLocations else []))

/-- The union of the lines of the sources `ps`. -/
def allLines (fs : FileSystem) (ps : List Path) : Finset GoString :=
  ps.toFinset.biUnion (fun p => (loadedLines fs p).toFinset)

/-- No source of `ps` fails to open or to read: a source on which `os.Stat` succeeds is
opened by `os.Open` and scanned to its end with a nil `scanner.Err()`. -/
def AllReadable (fs : FileSystem) (ps : List Path) : Prop :=
  ∀ p ∈ ps, loadFailure fs p = none

instance (fs : FileSystem) (ps : List Path) : Decidable (AllReadable fs ps) := by
  unfold AllReadable
  infer_instance

/-- The configuration in force for a possibly nil `*NewWordMapOptions`. -/
def mapConfig (options : Option NewWordMapOptions) : baseOptions :=
  (options.getD {}).tobaseOptions

/-- The configuration in force for a possibly nil `*NewWordListOptions`. -/
def listConfig (options : Option NewWordListOptions) : baseOptions :=
  (options.getD {}).tobaseOptions

/-- The configuration in force for a possibly nil `*IsValidWordOptions`: the options
given, or the value that `IsValidWord` substitutes for a nil pointer (lines 155-161). -/
def validConfig (options : Option IsValidWordOptions) : IsValidWordOptions :=
  options.getD
    { IgnoreCase := false, IgnoreDiacritics := false, Language := LanguageTag.English }

/-- The reading of "fails to load for a reason other than nonexistence" that lists three
reasons: `os.Stat` fails with an error other than "does not exist", or the source exists but
`os.Open` fails, or the scanner reports an error. -/
def failsOtherThanMissing (fs : FileSystem) (p : Path) : Bool :=
  match fs.stat p with
  | .notExist => false
  | .failed _ => true
  | .found =>
    match fs.openFile p with
    | .error _ => true
    | .ok f => f.readErr.isSome

/-! ## Concrete inputs -/

/-- A file system in which `os.Stat` on `/usr/share/dict/words` is refused (the directory
cannot be searched) and nothing else exists. -/
def fsStatDenied : FileSystem where
  stat p :=
    if p = "/usr/share/dict/words" then .failed ⟨"stat: permission denied"⟩ else .notExist
  openFile p :=
    if p = "/usr/share/dict/words" then .error ⟨"open: permission denied"⟩
    else .error ⟨"open: no such file or directory"⟩

/-- A file system with a readable `/usr/share/dict/words`, a `/usr/dict/words` whose
scan fails after one line, and an additional file `extra` that cannot be opened. -/
def fsSecondBroken : FileSystem where
  stat p :=
    if p = "/usr/share/dict/words" ∨ p = "/usr/dict/words" ∨ p = "extra" then .found
    else .notExist
  openFile p :=
    if p = "/usr/share/dict/words" then .ok ⟨[[97], [98]], none⟩
    else if p = "/usr/dict/words" then .ok ⟨[[99]], some ⟨"bufio.Scanner: token too long"⟩⟩
    else if p = "extra" then .error ⟨"open: permission denied"⟩
    else .error ⟨"open: no such file or directory"⟩

/-- A stand-in for `search.New`: byte equality, after folding the ASCII capitals to
small letters when `search.IgnoreCase` is among the options. -/
def searchAscii : SearchNew := fun _ opts a b =>
  let fold : Fin 256 → Fin 256 := fun c => if 65 ≤ c.val ∧ c.val ≤ 90 then c + 32 else c
  if SearchOption.IgnoreCase ∈ opts then decide (a.map fold = b.map fold) else decide (a = b)

/-- Options of `IsValidWord` naming the additional file `extra`, ignoring case. -/
def validOptsExtra : IsValidWordOptions where
  AdditionalWordFiles := ["extra"]
  IgnoreCase := true

/-- A file system in which `/usr/share/dict/words` and the local dictionary both hold
the single line `a`. -/
def fsSameWord : FileSystem where
  stat p :=
    if p = "/usr/share/dict/words" ∨ p = "~/Library/Spelling/LocalDictionary" then .found
    else .notExist
  openFile p :=
    if p = "/usr/share/dict/words" ∨ p = "~/Library/Spelling/LocalDictionary" then
      .ok ⟨[[97]], none⟩
    else .error ⟨"open: no such file or directory"⟩

/-- A file system with two readable sources: `/usr/share/dict/words` with the lines
`a`, `b`, `c`, `a` and `/usr/dict/words` with the lines `b`, `c`, `d`, `d`. -/
def fsTwo : FileSystem where
  stat p :=
    if p = "/usr/share/dict/words" ∨ p = "/usr/dict/words" then .found else .notExist
  openFile p :=
    if p = "/usr/share/dict/words" then .ok ⟨[[97], [98], [99], [97]], none⟩
    else if p = "/usr/dict/words" then .ok ⟨[[98], [99], [100], [100]], none⟩
    else .error ⟨"open: no such file or directory"⟩

/-- Options naming the additional file `extra`. -/
def optsExtra : baseOptions where
  AdditionalWordFiles := ["extra"]

/-- A map iteration order: decreasing order of the keys. -/
def rangeDescending : MapRange where
  keys m := Quot.liftOn m.val (fun l => l.insertionSort (· ≥ ·)) (fun a b h =>
    List.eq_of_perm_of_sorted
      ((List.perm_insertionSort _ a).trans (h.trans (List.perm_insertionSort _ b).symm))
      (List.sorted_insertionSort _ a) (List.sorted_insertionSort _ b))
  nodup m := by
    rcases m with ⟨⟨l⟩, hl⟩
    exact (List.perm_insertionSort _ l).nodup_iff.mpr hl
  mem_keys m _ := by
    rcases m with ⟨⟨l⟩, hl⟩
    exact (List.perm_insertionSort _ l).mem_iff

/-- A file system holding one readable file `/usr/share/dict/words`. -/
def fsOne : FileSystem where
  stat p := if p = "/usr/share/dict/words" then .found else .notExist
  openFile p :=
    if p = "/usr/share/dict/words" then .ok ⟨[[98], [], [97], [98]], none⟩
    else .error ⟨"open: no such file or directory"⟩

/-! ## Lemmas on the loops -/

theorem wordListLocations_eq (g : Locations) (o : baseOptions) :
    wordListLocations g o = resolvedSources g o := by
  unfold wordListLocations resolvedSources
  cases o.IncludeLocalDictionary <;> simp

theorem mem_resolvedSources (g : Locations) (o : baseOptions) (p : Path) :
    p ∈ resolvedSources g o ↔
      p ∈ g.unixStandardWordsFileLocations ∨ p ∈ o.AdditionalWordFiles ∨
        (o.IncludeLocalDictionary = true ∧ p ∈ g.localDictionaryLocations) := by
  unfold resolvedSources
  cases o.IncludeLocalDictionary <;> simp

theorem foldl_insert_eq (l : List GoString) (m : Finset GoString) :
    l.foldl (fun m w => insert w m) m = m ∪ l.toFinset := by
  induction l generalizing m with
  | nil => simp
  | cons a l ih =>
    rw [List.foldl_cons, ih]
    ext w
    simp only [Finset.mem_union, Finset.mem_insert, List.toFinset_cons]
    tauto

theorem parseWordList_eq (f : OpenFile) (m : Finset GoString) :
    parseWordList f m = (m ∪ f.lines.toFinset, f.readErr) := by
  unfold parseWordList
  rw [foldl_insert_eq]

theorem allLines_nil (fs : FileSystem) : allLines fs [] = ∅ := by
  simp [allLines]

theorem allLines_cons (fs : FileSystem) (p : Path) (ps : List Path) :
    allLines fs (p :: ps) = (loadedLines fs p).toFinset ∪ allLines fs ps := by
  simp [allLines, Finset.biUnion_insert]

theorem mem_allLines (fs : FileSystem) (ps : List Path) (w : GoString) :
    w ∈ allLines fs ps ↔ ∃ p ∈ ps, w ∈ loadedLines fs p := by
  simp [allLines]

theorem mem_loadedLines (fs : FileSystem) (p : Path) (w : GoString) :
    w ∈ loadedLines fs p ↔
      fs.stat p = .found ∧ ∃ f, fs.openFile p = .ok f ∧ w ∈ f.lines := by
  unfold loadedLines
  cases hs : fs.stat p <;> cases ho : fs.openFile p <;> simp

theorem loadFailure_eq_some (fs : FileSystem) (p : Path) (e : GoError) :
    loadFailure fs p = some e ↔
      fs.stat p = .found ∧
        (fs.openFile p = .error e ∨ ∃ f, fs.openFile p = .ok f ∧ f.readErr = some e) := by
  unfold loadFailure
  cases hs : fs.stat p <;> cases ho : fs.openFile p <;> simp

/-- The loop of `NewWordMap` returns the first failure with an empty map, or else the
initial map extended with the lines of every loaded source. -/
theorem NewWordMap_loop_eq (fs : FileSystem) (ps : List Path) (m : Finset GoString) :
    NewWordMap.loop fs ps m =
      match ps.findSome? (loadFailure fs) with
      | some e => (∅, some e)
      | none => (m ∪ allLines fs ps, none) := by
  induction ps generalizing m with
  | nil => simp [NewWordMap.loop, allLines_nil]
  | cons p ps ih =>
    rw [NewWordMap.loop, allLines_cons]
    cases hs : fs.stat p with
    | notExist => simp [StatResult.isErr, ih, loadFailure, loadedLines, hs, List.findSome?]
    | failed e => simp [StatResult.isErr, ih, loadFailure, loadedLines, hs, List.findSome?]
    | found =>
      cases ho : fs.openFile p with
      | error e => simp [StatResult.isErr, loadFailure, hs, ho, List.findSome?]
      | ok f =>
        cases hr : f.readErr with
        | some e =>
          simp [StatResult.isErr, loadFailure, hs, ho, hr, List.findSome?, parseWordList_eq]
        | none =>
          simp [StatResult.isErr, loadFailure, loadedLines, hs, ho, hr, List.findSome?, ih,
            Finset.union_assoc, parseWordList_eq]

theorem NewWordMap_loop_form (g : Locations) (fs : FileSystem)
    (options : Option NewWordMapOptions) :
    NewWordMap g fs options =
      NewWordMap.loop fs (resolvedSources g (mapConfig options)) ∅ := by
  cases options <;> simp [NewWordMap, wordListLocations_eq, mapConfig]

theorem NewWordMap_eq (g : Locations) (fs : FileSystem) (options : Option NewWordMapOptions) :
    NewWordMap g fs options =
      match (resolvedSources g (mapConfig options)).findSome? (loadFailure fs) with
      | some e => (∅, some e)
      | none => (allLines fs (resolvedSources g (mapConfig options)), none) := by
  rw [NewWordMap_loop_form, NewWordMap_loop_eq]
  simp

theorem allReadable_iff (fs : FileSystem) (ps : List Path) :
    AllReadable fs ps ↔
      ∀ p ∈ ps, fs.stat p = .found → ∃ f, fs.openFile p = .ok f ∧ f.readErr = none := by
  unfold AllReadable
  refine forall_congr' fun p => forall_congr' fun _ => ?_
  unfold loadFailure
  cases hs : fs.stat p <;> cases ho : fs.openFile p <;> simp

theorem findSome?_eq_none_of_allReadable {fs : FileSystem} {ps : List Path}
    (h : AllReadable fs ps) : ps.findSome? (loadFailure fs) = none := by
  rw [List.findSome?_eq_none_iff]
  exact h

theorem NewWordList_eq (g : Locations) (fs : FileSystem) (range : MapRange)
    (options : Option NewWordListOptions) :
    NewWordList g fs range options =
      match NewWordMap.loop fs (resolvedSources g (listConfig options)) ∅ with
      | (_, some err) => ([], some err)
      | (wordMap, none) =>
        if (options.getD {}).IgnoreSort = true then (range.keys wordMap, none)
        else (sortStrings (range.keys wordMap), none) := by
  cases options with
  | none =>
    simp only [NewWordList, NewWordMap_loop_form, mapConfig, listConfig, Option.getD]
    split <;> simp_all
  | some o =>
    simp only [NewWordList, NewWordMap_loop_form, mapConfig, listConfig, Option.getD]
    rcases NewWordMap.loop fs (resolvedSources g o.tobaseOptions) ∅ with ⟨m, _ | e⟩
    · by_cases hI : o.IgnoreSort = true <;> simp [hI]
    · simp

theorem sortStrings_perm (l : List GoString) : (sortStrings l).Perm l :=
  List.perm_insertionSort _ l

theorem sortStrings_sorted (l : List GoString) : (sortStrings l).Sorted (· ≤ ·) :=
  List.sorted_insertionSort _ l

/-- The result of sorting is determined by its specification: any sorted rearrangement of
`l` is `sortStrings l`, whatever algorithm `sort.Strings` runs. -/
theorem sortStrings_unique (l l' : List GoString) (hperm : l'.Perm l)
    (hsorted : l'.Sorted (· ≤ ·)) : l' = sortStrings l :=
  List.eq_of_perm_of_sorted (hperm.trans (sortStrings_perm l).symm) hsorted
    (sortStrings_sorted l)

theorem IsValidWord_loop_form (g : Locations) (fs : FileSystem) (searchNew : SearchNew)
    (word : GoString) (options : Option IsValidWordOptions) :
    IsValidWord g fs searchNew word options =
      IsValidWord.loop fs
        (searchNew (validConfig options).Language (matcherOptions (validConfig options)))
        word (resolvedSources g (validConfig options).tobaseOptions) := by
  cases options <;> simp [IsValidWord, wordListLocations_eq, validConfig]

theorem scan_eq_true_iff (matcher : GoString → GoString → Bool) (word : GoString)
    (lines : List GoString) :
    IsValidWord.scan matcher word lines = true ↔
      ∃ line ∈ lines, matcher word line = true := by
  induction lines with
  | nil => simp [IsValidWord.scan]
  | cons a l ih =>
    unfold IsValidWord.scan
    by_cases h : matcher word a = true
    · simp [h]
    · simp [h, ih]

theorem scan_eq_false_iff (matcher : GoString → GoString → Bool) (word : GoString)
    (lines : List GoString) :
    IsValidWord.scan matcher word lines = false ↔
      ∀ line ∈ lines, matcher word line = false := by
  rw [← Bool.not_eq_true, scan_eq_true_iff]
  simp

theorem scan_append_match (matcher : GoString → GoString → Bool) (word : GoString)
    (l₁ l₂ : List GoString) (line : GoString) (h : matcher word line = true) :
    IsValidWord.scan matcher word (l₁ ++ line :: l₂) = true :=
  (scan_eq_true_iff _ _ _).mpr ⟨line, by simp, h⟩

/-- Sources that raise no failure and hold no matching line are passed over. -/
theorem IsValidWord_loop_skip (fs : FileSystem) (matcher : GoString → GoString → Bool)
    (word : GoString) (before rest : List Path)
    (hread : AllReadable fs before)
    (hnomatch : ∀ q ∈ before, ∀ line ∈ loadedLines fs q, matcher word line = false) :
    IsValidWord.loop fs matcher word (before ++ rest) =
      IsValidWord.loop fs matcher word rest := by
  induction before with
  | nil => rfl
  | cons q qs ih =>
    have hread' : AllReadable fs qs := fun r hr => hread r (List.mem_cons_of_mem _ hr)
    have hnm' : ∀ r ∈ qs, ∀ line ∈ loadedLines fs r, matcher word line = false :=
      fun r hr => hnomatch r (List.mem_cons_of_mem _ hr)
    have hq := hread q (List.mem_cons_self _ _)
    have hl := hnomatch q (List.mem_cons_self _ _)
    rw [List.cons_append, IsValidWord.loop]
    cases hs : fs.stat q with
    | notExist => simpa [StatResult.isErr] using ih hread' hnm'
    | failed e => simpa [StatResult.isErr] using ih hread' hnm'
    | found =>
      cases ho : fs.openFile q with
      | error e => simp [loadFailure, hs, ho] at hq
      | ok f =>
        have hr : f.readErr = none := by simpa [loadFailure, hs, ho] using hq
        have hsc : IsValidWord.scan matcher word f.lines = false := by
          rw [scan_eq_false_iff]
          simpa [loadedLines, hs, ho] using hl
        simpa [StatResult.isErr, hsc, hr] using ih hread' hnm'

/-- When no source fails, the loop of `IsValidWord` answers whether some line of some
loaded source matches. -/
theorem IsValidWord_loop_readable (fs : FileSystem) (matcher : GoString → GoString → Bool)
    (word : GoString) (ps : List Path) (hread : AllReadable fs ps) :
    IsValidWord.loop fs matcher word ps =
      (ps.any (fun p => (loadedLines fs p).any (matcher word)), none) := by
  induction ps with
  | nil => rfl
  | cons q qs ih =>
    have ih' := ih (fun r hr => hread r (List.mem_cons_of_mem _ hr))
    have hq := hread q (List.mem_cons_self _ _)
    rw [IsValidWord.loop]
    cases hs : fs.stat q with
    | notExist => simp [StatResult.isErr, ih', loadedLines, hs]
    | failed e => simp [StatResult.isErr, ih', loadedLines, hs]
    | found =>
      cases ho : fs.openFile q with
      | error e => simp [loadFailure, hs, ho] at hq
      | ok f =>
        have hr : f.readErr = none := by simpa [loadFailure, hs, ho] using hq
        cases hsc : IsValidWord.scan matcher word f.lines with
        | true =>
          have : f.lines.any (matcher word) = true := by
            rw [List.any_eq_true]
            exact (scan_eq_true_iff _ _ _).mp hsc
          simp [StatResult.isErr, loadedLines, hs, ho, this, hsc]
        | false =>
          have : f.lines.any (matcher word) = false := by
            rw [List.any_eq_false]
            intro x hx
            simp [(scan_eq_false_iff _ _ _).mp hsc x hx]
          simp [StatResult.isErr, loadedLines, hs, ho, this, hr, ih', hsc]

theorem mem_matcherOptions (o : IsValidWordOptions) :
    (SearchOption.IgnoreCase ∈ matcherOptions o ↔ o.IgnoreCase = true) ∧
    (SearchOption.IgnoreDiacritics ∈ matcherOptions o ↔ o.IgnoreDiacritics = true) := by
  unfold matcherOptions
  cases o.IgnoreCase <;> cases o.IgnoreDiacritics <;> simp

theorem allLines_append (fs : FileSystem) (a b : List Path) :
    allLines fs (a ++ b) = allLines fs a ∪ allLines fs b := by
  ext w
  simp only [Finset.mem_union, mem_allLines, List.mem_append]
  constructor
  · rintro ⟨p, hp | hp, hw⟩
    · exact Or.inl ⟨p, hp, hw⟩
    · exact Or.inr ⟨p, hp, hw⟩
  · rintro (⟨p, hp, hw⟩ | ⟨p, hp, hw⟩)
    · exact ⟨p, Or.inl hp, hw⟩
    · exact ⟨p, Or.inr hp, hw⟩

theorem NewWordMap_of_allReadable (g : Locations) (fs : FileSystem)
    (options : Option NewWordMapOptions)
    (hread : AllReadable fs (resolvedSources g (mapConfig options))) :
    NewWordMap g fs options = (allLines fs (resolvedSources g (mapConfig options)), none) := by
  rw [NewWordMap_eq, findSome?_eq_none_of_allReadable hread]

theorem resolvedSources_local (g : Locations) (additional : List Path) :
    resolvedSources g ⟨true, additional⟩ =
      resolvedSources g ⟨false, additional⟩ ++ g.localDictionaryLocations := by
  simp [resolvedSources]

theorem card_lt_card_union_iff (A B : Finset GoString) :
    A.card < (A ∪ B).card ↔ ∃ w ∈ B, w ∉ A := by
  constructor
  · intro h
    by_contra hne
    have hsub : B ⊆ A := by
      intro w hw
      by_contra hwA
      exact hne ⟨w, hw, hwA⟩
    rw [Finset.union_eq_left.mpr hsub] at h
    exact lt_irrefl _ h
  · rintro ⟨w, hwB, hwA⟩
    apply Finset.card_lt_card
    rw [Finset.ssubset_iff_of_subset Finset.subset_union_left]
    exact ⟨w, Finset.mem_union_right _ hwB, hwA⟩

theorem NewWordMap_nil_eq (g : Locations) (fs : FileSystem) :
    NewWordMap g fs none = NewWordMap g fs (some {}) := rfl

theorem NewWordList_nil_eq (g : Locations) (fs : FileSystem) (range : MapRange) :
    NewWordList g fs range none = NewWordList g fs range (some {}) := rfl

theorem IsValidWord_nil_eq (g : Locations) (fs : FileSystem) (searchNew : SearchNew)
    (word : GoString) :
    IsValidWord g fs searchNew word none =
      IsValidWord g fs searchNew word (some { Language := LanguageTag.English }) := rfl

theorem IsValidWord_unset_eq (g : Locations) (fs : FileSystem) (searchNew : SearchNew)
    (word : GoString) :
    IsValidWord g fs searchNew word (some {}) =
      IsValidWord.loop fs (searchNew LanguageTag.zero []) word
        (resolvedSources g {}) := by
  rw [IsValidWord_loop_form]
  rfl

/-- With `IgnoreSort` true the list keeps the iteration order of the map, here a
decreasing one; with `IgnoreSort` false the same keys come out in increasing order. -/
theorem NewWordList_order_example :
    (NewWordList initialLocations fsOne rangeDescending (some ⟨{}, true⟩)).1 =
      [[98], [97], []] ∧
    (NewWordList initialLocations fsOne rangeDescending (some ⟨{}, false⟩)).1 =
      [[], [97], [98]] := by
  decide

/-! ## The claims -/

/-- C1: when no resolved source fails to open or to read, `NewWordMap` returns a nil
error and a set whose keys are exactly the lines of the resolved sources that exist (the
built-in locations, the additional files, and the local dictionary locations only when
`IncludeLocalDictionary` is true); in particular a blank line of such a source makes the
empty string a key. -/
theorem C1_NewWordMap_keys (g : Locations) (fs : FileSystem)
    (options : Option NewWordMapOptions)
    (hread : AllReadable fs (resolvedSources g (mapConfig options))) :
    (NewWordMap g fs options).2 = none ∧
    (∀ w : GoString, w ∈ (NewWordMap g fs options).1 ↔
      ∃ p : Path,
        (p ∈ g.unixStandardWordsFileLocations ∨
          p ∈ (mapConfig options).AdditionalWordFiles ∨
          ((mapConfig options).IncludeLocalDictionary = true ∧
            p ∈ g.localDictionaryLocations)) ∧
        fs.stat p = .found ∧ ∃ f, fs.openFile p = .ok f ∧ w ∈ f.lines) ∧
    ((∃ p ∈ resolvedSources g (mapConfig options),
        fs.stat p = .found ∧ ∃ f, fs.openFile p = .ok f ∧ ([] : GoString) ∈ f.lines) →
      ([] : GoString) ∈ (NewWordMap g fs options).1) := by
  have hE : NewWordMap g fs options =
      (allLines fs (resolvedSources g (mapConfig options)), none) := by
    rw [NewWordMap_eq, findSome?_eq_none_of_allReadable hread]
  have hmem : ∀ w : GoString, w ∈ (NewWordMap g fs options).1 ↔
      ∃ p ∈ resolvedSources g (mapConfig options),
        fs.stat p = .found ∧ ∃ f, fs.openFile p = .ok f ∧ w ∈ f.lines := by
    intro w
    rw [hE]
    simp only [mem_allLines, mem_loadedLines]
  refine ⟨by rw [hE], ?_, ?_⟩
  · intro w
    rw [hmem]
    constructor
    · rintro ⟨p, hp, h⟩
      exact ⟨p, (mem_resolvedSources g _ p).mp hp, h⟩
    · rintro ⟨p, hp, h⟩
      exact ⟨p, (mem_resolvedSources g _ p).mpr hp, h⟩
  · intro h
    exact (hmem []).mpr h

/-- C1 at a concrete input: one readable source with the lines `b`, blank, `a`, `b`. -/
theorem C1_NewWordMap_keys_witness :
    AllReadable fsOne (resolvedSources initialLocations (mapConfig none)) ∧
    (NewWordMap initialLocations fsOne none).2 = none ∧
    ([] : GoString) ∈ (NewWordMap initialLocations fsOne none).1 :=
  ⟨by decide,
    (C1_NewWordMap_keys initialLocations fsOne none (by decide)).1,
    (C1_NewWordMap_keys initialLocations fsOne none (by decide)).2.2
      ⟨"/usr/share/dict/words", by decide, by decide, _, rfl, by decide⟩⟩

/-- C2 as stated fails: a source whose `os.Stat` fails with an error other than "does not
exist" is skipped, and `NewWordMap` returns a nil error. -/
theorem C2_stat_failure_is_skipped :
    (∃ p ∈ resolvedSources initialLocations (mapConfig none),
        failsOtherThanMissing fsStatDenied p = true) ∧
    (NewWordMap initialLocations fsStatDenied none).2 = none ∧
    ¬ ((NewWordMap initialLocations fsStatDenied none).2 ≠ none ↔
        ∃ p ∈ resolvedSources initialLocations (mapConfig none),
          failsOtherThanMissing fsStatDenied p = true) := by
  decide

/-- C2, amended: `NewWordMap` skips a resolved source whenever `os.Stat` returns an
error on it, whatever the error (its result is that of the loop over the sources on which
`os.Stat` succeeds); it returns a non-nil error if and only if some resolved source on
which `os.Stat` succeeds cannot be opened or fails while it is read. -/
theorem C2_NewWordMap_error_iff (g : Locations) (fs : FileSystem)
    (options : Option NewWordMapOptions) :
    ((NewWordMap g fs options).2 ≠ none ↔
      ∃ p ∈ resolvedSources g (mapConfig options),
        fs.stat p = .found ∧
          ((∃ e, fs.openFile p = .error e) ∨
            ∃ f e, fs.openFile p = .ok f ∧ f.readErr = some e)) ∧
    NewWordMap g fs options =
      NewWordMap.loop fs
        ((resolvedSources g (mapConfig options)).filter (fun p => !(fs.stat p).isErr)) ∅ := by
  constructor
  · rw [NewWordMap_eq]
    cases h : (resolvedSources g (mapConfig options)).findSome? (loadFailure fs) with
    | none =>
      simp only [ne_eq, not_true_eq_false, false_iff, not_exists, not_and]
      intro p hp hs hbad
      rw [List.findSome?_eq_none_iff] at h
      have hp' := h p hp
      rcases hbad with ⟨e, he⟩ | ⟨f, e, hf, he⟩
      · simp [loadFailure, hs, he] at hp'
      · simp [loadFailure, hs, hf, he] at hp'
    | some e =>
      simp only [ne_eq, reduceCtorEq, not_false_eq_true, true_iff]
      obtain ⟨p, hp, he⟩ := List.exists_of_findSome?_eq_some h
      rw [loadFailure_eq_some] at he
      refine ⟨p, hp, he.1, ?_⟩
      rcases he.2 with ho | ⟨f, hf, hr⟩
      · exact Or.inl ⟨e, ho⟩
      · exact Or.inr ⟨f, e, hf, hr⟩
  · rw [NewWordMap_loop_form]
    generalize resolvedSources g (mapConfig options) = ps
    generalize (∅ : Finset GoString) = m
    induction ps generalizing m with
    | nil => rfl
    | cons p ps ih =>
      cases hs : (fs.stat p).isErr with
      | true => simp [NewWordMap.loop, hs, List.filter, ih]
      | false =>
        simp only [NewWordMap.loop, hs, List.filter, Bool.not_false, Bool.false_eq_true,
          if_false]
        cases fs.openFile p with
        | error e => rfl
        | ok f =>
          simp only []
          cases hpw : parseWordList f m with
          | mk m' r =>
            cases r with
            | some e => rfl
            | none => exact ih m'

/-- C3: when `NewWordMap` returns an error its set is empty, and when `NewWordList`
returns an error its list is empty; the error is the one raised by the first source, in
resolved order, that fails to open or to read. -/
theorem C3_error_returns_empty (g : Locations) (fs : FileSystem) (range : MapRange)
    (mo : Option NewWordMapOptions) (lo : Option NewWordListOptions) :
    (∀ e, (NewWordMap g fs mo).2 = some e →
      (NewWordMap g fs mo).1 = ∅ ∧
      ∃ before p after, resolvedSources g (mapConfig mo) = before ++ p :: after ∧
        AllReadable fs before ∧ loadFailure fs p = some e) ∧
    (∀ e, (NewWordList g fs range lo).2 = some e →
      (NewWordList g fs range lo).1 = [] ∧
      ∃ before p after, resolvedSources g (listConfig lo) = before ++ p :: after ∧
        AllReadable fs before ∧ loadFailure fs p = some e) := by
  constructor
  · intro e he
    rw [NewWordMap_eq] at he ⊢
    cases h : (resolvedSources g (mapConfig mo)).findSome? (loadFailure fs) with
    | none => simp [h] at he
    | some e' =>
      simp only [h, Option.some.injEq] at he
      subst he
      obtain ⟨l₁, a, l₂, hl, ha, hpre⟩ := List.findSome?_eq_some_iff.mp h
      exact ⟨rfl, l₁, a, l₂, hl, hpre, ha⟩
  · intro e he
    rw [NewWordList_eq, NewWordMap_loop_eq] at he ⊢
    cases h : (resolvedSources g (listConfig lo)).findSome? (loadFailure fs) with
    | none =>
      rw [h] at he
      simp only at he
      split at he <;> simp at he
    | some e' =>
      simp only [h, Option.some.injEq] at he
      subst he
      obtain ⟨l₁, a, l₂, hl, ha, hpre⟩ := List.findSome?_eq_some_iff.mp h
      exact ⟨rfl, l₁, a, l₂, hl, hpre, ha⟩

/-- C3 at a concrete input: the first source is read, the second fails while it is
read, a later one cannot be opened; the error is the second source's and nothing is
returned with it. -/
theorem C3_error_returns_empty_witness :
    (NewWordMap initialLocations fsSecondBroken (some ⟨optsExtra⟩)).2 =
        some ⟨"bufio.Scanner: token too long"⟩ ∧
    (NewWordMap initialLocations fsSecondBroken (some ⟨optsExtra⟩)).1 = ∅ ∧
    (NewWordList initialLocations fsSecondBroken rangeDescending (some ⟨optsExtra, false⟩)).1
        = [] :=
  ⟨by decide,
    ((C3_error_returns_empty initialLocations fsSecondBroken rangeDescending
      (some ⟨optsExtra⟩) (some ⟨optsExtra, false⟩)).1
        ⟨"bufio.Scanner: token too long"⟩ (by decide)).1,
    ((C3_error_returns_empty initialLocations fsSecondBroken rangeDescending
      (some ⟨optsExtra⟩) (some ⟨optsExtra, false⟩)).2
        ⟨"bufio.Scanner: token too long"⟩ (by decide)).1⟩

/-- C6: with `IgnoreSort` false (nil options included), a list that `NewWordList`
returns without error is in non-decreasing byte-wise lexicographic order: each element is
equal to, or lexicographically below (comparing bytes), every later element. -/
theorem C6_NewWordList_sorted (g : Locations) (fs : FileSystem) (range : MapRange)
    (options : Option NewWordListOptions)
    (hsort : ∀ o, options = some o → o.IgnoreSort = false)
    (hok : (NewWordList g fs range options).2 = none) :
    List.Sorted (fun a b : GoString => a = b ∨ List.Lex (· < ·) a b)
      (NewWordList g fs range options).1 := by
  have hflag : (options.getD {}).IgnoreSort = false := by
    cases options with
    | none => rfl
    | some o => exact hsort o rfl
  rw [NewWordList_eq] at hok ⊢
  rcases hloop : NewWordMap.loop fs (resolvedSources g (listConfig options)) ∅ with ⟨m, r⟩
  rw [hloop] at hok
  cases r with
  | some e => simp at hok
  | none =>
    simp only [hflag, Bool.false_eq_true, if_false]
    exact (sortStrings_sorted _).imp (fun h => le_iff_eq_or_lt.mp h)

/-- C6 at a concrete input: nil options and one readable source. -/
theorem C6_NewWordList_sorted_witness :
    (NewWordList initialLocations fsOne rangeDescending none).2 = none ∧
    List.Sorted (fun a b : GoString => a = b ∨ List.Lex (· < ·) a b)
      (NewWordList initialLocations fsOne rangeDescending none).1 :=
  ⟨by decide,
    C6_NewWordList_sorted initialLocations fsOne rangeDescending none
      (by intro o h; cases h) (by decide)⟩

/-- C7: whatever `IgnoreSort` is, `NewWordList` succeeds exactly when `NewWordMap` with
the same `IncludeLocalDictionary` and `AdditionalWordFiles` succeeds, and then the list has
no duplicates, as many elements as the set has keys, and the same members as the set. -/
theorem C7_list_matches_set (g : Locations) (fs : FileSystem) (range : MapRange)
    (lo : Option NewWordListOptions) (mo : Option NewWordMapOptions)
    (hsame : mapConfig mo = listConfig lo) :
    ((NewWordList g fs range lo).2 = none ↔ (NewWordMap g fs mo).2 = none) ∧
    ((NewWordList g fs range lo).2 = none →
      (NewWordList g fs range lo).1.Nodup ∧
      (NewWordList g fs range lo).1.length = (NewWordMap g fs mo).1.card ∧
      ∀ w, w ∈ (NewWordList g fs range lo).1 ↔ w ∈ (NewWordMap g fs mo).1) := by
  rw [NewWordList_eq, NewWordMap_loop_form, hsame]
  rcases hloop : NewWordMap.loop fs (resolvedSources g (listConfig lo)) ∅ with ⟨m, r⟩
  have hlen : (range.keys m).length = m.card := by
    rw [← List.toFinset_card_of_nodup (range.nodup m)]
    congr 1
    ext w
    simp [range.mem_keys]
  cases r with
  | some e => simp
  | none =>
    cases (lo.getD {}).IgnoreSort with
    | true =>
      simp only [if_true, true_iff, true_implies]
      exact ⟨trivial, range.nodup m, hlen, range.mem_keys m⟩
    | false =>
      simp only [Bool.false_eq_true, if_false, true_iff, true_implies]
      refine ⟨trivial, ?_, ?_, ?_⟩
      · exact (sortStrings_perm _).nodup_iff.mpr (range.nodup m)
      · rw [(sortStrings_perm _).length_eq, hlen]
      · intro w
        rw [(sortStrings_perm _).mem_iff]
        exact range.mem_keys m w

/-- C7 at a concrete input: unsorted list options against nil map options. -/
theorem C7_list_matches_set_witness :
    mapConfig none = listConfig (some ⟨{}, true⟩) ∧
    (NewWordList initialLocations fsOne rangeDescending (some ⟨{}, true⟩)).1.length =
      (NewWordMap initialLocations fsOne none).1.card :=
  ⟨by decide,
    ((C7_list_matches_set initialLocations fsOne rangeDescending (some ⟨{}, true⟩) none
      (by decide)).2 (by decide)).2.1⟩

/-- C4: when no resolved source fails to open or to read, `IsValidWord` returns
`(true, nil)` if and only if some line of some existing resolved source is equivalent to
the word under the comparator built from the configuration's `Language`, with
`search.IgnoreCase` among its options exactly when `IgnoreCase` is true and
`search.IgnoreDiacritics` exactly when `IgnoreDiacritics` is true; otherwise it returns
`(false, nil)`. -/
theorem C4_IsValidWord_iff (g : Locations) (fs : FileSystem) (searchNew : SearchNew)
    (word : GoString) (options : Option IsValidWordOptions)
    (hread : AllReadable fs (resolvedSources g (validConfig options).tobaseOptions)) :
    (SearchOption.IgnoreCase ∈ matcherOptions (validConfig options) ↔
      (validConfig options).IgnoreCase = true) ∧
    (SearchOption.IgnoreDiacritics ∈ matcherOptions (validConfig options) ↔
      (validConfig options).IgnoreDiacritics = true) ∧
    (IsValidWord g fs searchNew word options = (true, none) ↔
      ∃ p ∈ resolvedSources g (validConfig options).tobaseOptions,
        fs.stat p = .found ∧ ∃ f, fs.openFile p = .ok f ∧ ∃ line ∈ f.lines,
          searchNew (validConfig options).Language (matcherOptions (validConfig options))
            word line = true) ∧
    (IsValidWord g fs searchNew word options ≠ (true, none) →
      IsValidWord g fs searchNew word options = (false, none)) := by
  refine ⟨(mem_matcherOptions _).1, (mem_matcherOptions _).2, ?_, ?_⟩
  · rw [IsValidWord_loop_form, IsValidWord_loop_readable _ _ _ _ hread]
    simp only [Prod.mk.injEq, and_true, List.any_eq_true]
    constructor
    · rintro ⟨p, hp, line, hline, hm⟩
      rw [mem_loadedLines] at hline
      obtain ⟨hs, f, hf, hl⟩ := hline
      exact ⟨p, hp, hs, f, hf, line, hl, hm⟩
    · rintro ⟨p, hp, hs, f, hf, line, hl, hm⟩
      exact ⟨p, hp, line, (mem_loadedLines _ _ _).mpr ⟨hs, f, hf, hl⟩, hm⟩
  · rw [IsValidWord_loop_form, IsValidWord_loop_readable _ _ _ _ hread]
    intro h
    simp only [ne_eq, Prod.mk.injEq, and_true, Bool.not_eq_true] at h
    simp [h]

/-- C4 at a concrete input: `B` is found as `b` when case is ignored. -/
theorem C4_IsValidWord_iff_witness :
    AllReadable fsOne
      (resolvedSources initialLocations (validConfig (some { IgnoreCase := true })).tobaseOptions) ∧
    IsValidWord initialLocations fsOne searchAscii [66] (some { IgnoreCase := true }) =
      (true, none) :=
  ⟨by decide,
    (C4_IsValidWord_iff initialLocations fsOne searchAscii [66]
      (some { IgnoreCase := true }) (by decide)).2.2.1.mpr
      ⟨"/usr/share/dict/words", by decide, by decide, _, rfl, [98], by decide, by decide⟩⟩

/-- C5: `IsValidWord` scans the resolved sources in priority order and the lines of a
source in file order. If every source before `p` is skipped or read without failure and
without an equivalent line, then an equivalent line of `p` gives `(true, nil)` whatever
follows it (later lines, the scanner error of `p`, later sources), a failure to open `p`
gives `(false, err)`, and a failure while reading `p`, no line of which is equivalent, gives
`(false, err)`. -/
theorem C5_IsValidWord_short_circuit (g : Locations) (fs : FileSystem)
    (searchNew : SearchNew) (word : GoString) (options : Option IsValidWordOptions)
    (before : List Path) (p : Path) (after : List Path)
    (hsplit : resolvedSources g (validConfig options).tobaseOptions = before ++ p :: after)
    (hread : AllReadable fs before)
    (hnomatch : ∀ q ∈ before, ∀ line ∈ loadedLines fs q,
      searchNew (validConfig options).Language (matcherOptions (validConfig options))
        word line = false)
    (hstat : fs.stat p = .found) :
    (∀ f l₁ line l₂, fs.openFile p = .ok f → f.lines = l₁ ++ line :: l₂ →
      searchNew (validConfig options).Language (matcherOptions (validConfig options))
        word line = true →
      IsValidWord g fs searchNew word options = (true, none)) ∧
    (∀ e, fs.openFile p = .error e →
      IsValidWord g fs searchNew word options = (false, some e)) ∧
    (∀ f e, fs.openFile p = .ok f → f.readErr = some e →
      (∀ line ∈ f.lines,
        searchNew (validConfig options).Language (matcherOptions (validConfig options))
          word line = false) →
      IsValidWord g fs searchNew word options = (false, some e)) := by
  rw [IsValidWord_loop_form, hsplit, IsValidWord_loop_skip _ _ _ _ _ hread hnomatch,
    IsValidWord.loop]
  refine ⟨?_, ?_, ?_⟩
  · intro f l₁ line l₂ ho hl hm
    have := scan_append_match _ word l₁ l₂ line hm
    simp [hstat, StatResult.isErr, ho, hl, this]
  · intro e ho
    simp [hstat, StatResult.isErr, ho]
  · intro f e ho hr hl
    have := (scan_eq_false_iff _ word f.lines).mpr hl
    simp [hstat, StatResult.isErr, ho, hr, this]

/-- C5 at a concrete input: `a` is found in the first source although the second one
fails while it is read and a later one cannot be opened; `c` is not found before the read
failure of the second source, whose error is returned. -/
theorem C5_IsValidWord_short_circuit_witness :
    IsValidWord initialLocations fsSecondBroken searchAscii [65] (some validOptsExtra) =
      (true, none) ∧
    IsValidWord initialLocations fsSecondBroken searchAscii [100] (some validOptsExtra) =
      (false, some ⟨"bufio.Scanner: token too long"⟩) :=
  ⟨(C5_IsValidWord_short_circuit initialLocations fsSecondBroken searchAscii [65]
      (some validOptsExtra) [] "/usr/share/dict/words" ["/usr/dict/words", "extra"]
      (by decide) (by decide) (by decide) (by decide)).1
      ⟨[[97], [98]], none⟩ [] [97] [[98]] rfl (by decide) (by decide),
    (C5_IsValidWord_short_circuit initialLocations fsSecondBroken searchAscii [100]
      (some validOptsExtra) ["/usr/share/dict/words"] "/usr/dict/words" ["extra"]
      (by decide) (by decide) (by decide) (by decide)).2.2
      ⟨[[99]], some ⟨"bufio.Scanner: token too long"⟩⟩ ⟨"bufio.Scanner: token too long"⟩
      rfl (by decide) (by decide)⟩

/-- C8: passing nil options is the same as passing an options value with every field
unset. `NewWordMap` and `NewWordList` return the same results for both. `IsValidWord`
builds its comparator for `language.English` with no option when the pointer is nil, and
for the zero `language.Tag` with no option when every field is unset; as the comparator
built for the zero tag is the one built for English (an unset language means English),
`IsValidWord` returns the same result for both, for every word and file-system state. -/
theorem C8_nil_options_are_defaults (g : Locations) (fs : FileSystem) (range : MapRange)
    (searchNew : SearchNew) (word : GoString)
    (hund : ∀ a b : GoString,
      searchNew LanguageTag.zero [] a b = searchNew LanguageTag.English [] a b) :
    IsValidWord g fs searchNew word none = IsValidWord g fs searchNew word (some {}) ∧
    IsValidWord g fs searchNew word none =
      IsValidWord.loop fs (searchNew LanguageTag.English []) word (resolvedSources g {}) ∧
    NewWordMap g fs none = NewWordMap g fs (some {}) ∧
    NewWordList g fs range none = NewWordList g fs range (some {}) := by
  have hnil : IsValidWord g fs searchNew word none =
      IsValidWord.loop fs (searchNew LanguageTag.English []) word
        (resolvedSources g {}) := by
    rw [IsValidWord_loop_form]
    rfl
  have hmatcher : searchNew LanguageTag.zero [] = searchNew LanguageTag.English [] :=
    funext fun a => funext fun b => hund a b
  refine ⟨?_, hnil, NewWordMap_nil_eq g fs, NewWordList_nil_eq g fs range⟩
  rw [hnil, IsValidWord_unset_eq, hmatcher]

/-- C8 at a concrete input: a comparator that does not depend on the language tag, and a
word that the only source holds. -/
theorem C8_nil_options_are_defaults_witness :
    (∀ a b : GoString,
      searchAscii LanguageTag.zero [] a b = searchAscii LanguageTag.English [] a b) ∧
    IsValidWord initialLocations fsOne searchAscii [97] none = (true, none) ∧
    IsValidWord initialLocations fsOne searchAscii [97] none =
      IsValidWord initialLocations fsOne searchAscii [97] (some {}) :=
  ⟨fun _ _ => rfl, by decide,
    (C8_nil_options_are_defaults initialLocations fsOne rangeDescending searchAscii [97]
      (fun _ _ => rfl)).1⟩

/-- C9 as stated fails: the local dictionary exists and holds a line, no source is
unreadable, and the set is not larger with `IncludeLocalDictionary` true, because the line
is already a line of another source. -/
theorem C9_same_word_no_growth :
    AllReadable fsSameWord (resolvedSources initialLocations ⟨true, []⟩) ∧
    fsSameWord.stat "~/Library/Spelling/LocalDictionary" = .found ∧
    fsSameWord.openFile "~/Library/Spelling/LocalDictionary" = .ok ⟨[[97]], none⟩ ∧
    ¬ ((NewWordMap initialLocations fsSameWord (some ⟨⟨false, []⟩⟩)).1.card <
        (NewWordMap initialLocations fsSameWord (some ⟨⟨true, []⟩⟩)).1.card) :=
  ⟨by decide, by decide, rfl, by decide⟩

/-- C9, amended: when no resolved source is unreadable, the set returned with
`IncludeLocalDictionary` true has at least as many entries as the set returned with the
same additional files and `IncludeLocalDictionary` false, and strictly more exactly when
some existing local dictionary file holds a line that is not in the latter set. -/
theorem C9_local_dictionary_growth (g : Locations) (fs : FileSystem)
    (additional : List Path)
    (hread : AllReadable fs (resolvedSources g ⟨true, additional⟩)) :
    (NewWordMap g fs (some ⟨⟨false, additional⟩⟩)).1.card ≤
      (NewWordMap g fs (some ⟨⟨true, additional⟩⟩)).1.card ∧
    ((NewWordMap g fs (some ⟨⟨false, additional⟩⟩)).1.card <
        (NewWordMap g fs (some ⟨⟨true, additional⟩⟩)).1.card ↔
      ∃ p ∈ g.localDictionaryLocations, fs.stat p = .found ∧
        ∃ f, fs.openFile p = .ok f ∧
          ∃ w ∈ f.lines, w ∉ (NewWordMap g fs (some ⟨⟨false, additional⟩⟩)).1) := by
  have hread' : AllReadable fs (resolvedSources g ⟨false, additional⟩) := by
    intro p hp
    apply hread p
    rw [resolvedSources_local]
    exact List.mem_append_left _ hp
  have hT := NewWordMap_of_allReadable g fs (some ⟨⟨true, additional⟩⟩) hread
  have hF := NewWordMap_of_allReadable g fs (some ⟨⟨false, additional⟩⟩) hread'
  simp only [mapConfig, Option.getD_some] at hT hF
  rw [hT, hF, resolvedSources_local, allLines_append]
  refine ⟨Finset.card_le_card Finset.subset_union_left, ?_⟩
  rw [card_lt_card_union_iff]
  constructor
  · rintro ⟨w, hw, hn⟩
    obtain ⟨p, hp, hl⟩ := (mem_allLines _ _ _).mp hw
    obtain ⟨hs, f, hf, hwf⟩ := (mem_loadedLines _ _ _).mp hl
    exact ⟨p, hp, hs, f, hf, w, hwf, hn⟩
  · rintro ⟨p, hp, hs, f, hf, w, hwf, hn⟩
    exact ⟨w, (mem_allLines _ _ _).mpr ⟨p, hp, (mem_loadedLines _ _ _).mpr ⟨hs, f, hf, hwf⟩⟩,
      hn⟩

/-- C9, amended, at a concrete input: the local dictionary repeats the only word. -/
theorem C9_local_dictionary_growth_witness :
    AllReadable fsSameWord (resolvedSources initialLocations ⟨true, []⟩) ∧
    (NewWordMap initialLocations fsSameWord (some ⟨⟨false, []⟩⟩)).1.card ≤
      (NewWordMap initialLocations fsSameWord (some ⟨⟨true, []⟩⟩)).1.card :=
  ⟨by decide, (C9_local_dictionary_growth initialLocations fsSameWord [] (by decide)).1⟩

/-- C10: when two readable sources `p` and `q` are the only resolved sources that exist,
with `N` and `M` distinct lines of which `K` are common, `NewWordMap` returns without error
a set of exactly `N + M - K` entries. -/
theorem C10_two_sources_cardinality (g : Locations) (fs : FileSystem)
    (options : Option NewWordMapOptions) (p q : Path) (fp fq : OpenFile)
    (hp : p ∈ resolvedSources g (mapConfig options))
    (hq : q ∈ resolvedSources g (mapConfig options))
    (hsp : fs.stat p = .found) (hop : fs.openFile p = .ok fp) (hrp : fp.readErr = none)
    (hsq : fs.stat q = .found) (hoq : fs.openFile q = .ok fq) (hrq : fq.readErr = none)
    (honly : ∀ r ∈ resolvedSources g (mapConfig options),
      fs.stat r = .found → r = p ∨ r = q) :
    (NewWordMap g fs options).2 = none ∧
    (NewWordMap g fs options).1.card =
      fp.lines.toFinset.card + fq.lines.toFinset.card -
        (fp.lines.toFinset ∩ fq.lines.toFinset).card := by
  have hlp : loadedLines fs p = fp.lines := by simp [loadedLines, hsp, hop]
  have hlq : loadedLines fs q = fq.lines := by simp [loadedLines, hsq, hoq]
  have hread : AllReadable fs (resolvedSources g (mapConfig options)) := by
    intro r hr
    cases hs : fs.stat r with
    | notExist => simp [loadFailure, hs]
    | failed e => simp [loadFailure, hs]
    | found =>
      rcases honly r hr hs with rfl | rfl
      · simp [loadFailure, hsp, hop, hrp]
      · simp [loadFailure, hsq, hoq, hrq]
  rw [NewWordMap_of_allReadable g fs options hread]
  have hset : allLines fs (resolvedSources g (mapConfig options)) =
      fp.lines.toFinset ∪ fq.lines.toFinset := by
    ext w
    rw [mem_allLines, Finset.mem_union, List.mem_toFinset, List.mem_toFinset]
    constructor
    · rintro ⟨r, hr, hw⟩
      have hs : fs.stat r = .found := ((mem_loadedLines _ _ _).mp hw).1
      rcases honly r hr hs with rfl | rfl
      · exact Or.inl (hlp ▸ hw)
      · exact Or.inr (hlq ▸ hw)
    · rintro (hw | hw)
      · exact ⟨p, hp, hlp ▸ hw⟩
      · exact ⟨q, hq, hlq ▸ hw⟩
  exact ⟨rfl, by rw [hset, Finset.card_union]⟩

/-- C10 at a concrete input: 3 and 3 distinct lines, 2 in common, 4 entries. -/
theorem C10_two_sources_cardinality_witness :
    (NewWordMap initialLocations fsTwo none).2 = none ∧
    (NewWordMap initialLocations fsTwo none).1.card = 3 + 3 - 2 :=
  ⟨(C10_two_sources_cardinality initialLocations fsTwo none
      "/usr/share/dict/words" "/usr/dict/words"
      ⟨[[97], [98], [99], [97]], none⟩ ⟨[[98], [99], [100], [100]], none⟩
      (by decide) (by decide) (by decide) rfl rfl (by decide) rfl rfl (by decide)).1,
    (C10_two_sources_cardinality initialLocations fsTwo none
      "/usr/share/dict/words" "/usr/dict/words"
      ⟨[[97], [98], [99], [97]], none⟩ ⟨[[98], [99], [100], [100]], none⟩
      (by decide) (by decide) (by decide) rfl rfl (by decide) rfl rfl (by decide)).2.trans
      (by decide)⟩

end Words
